import Mathlib

/-!
Verification of the peaks.js interactive rendering layer sources:
`src/segments-layer.js` (`SegmentsLayer`) and the mouse drag handler module
(`MouseDragHandler`).

Embedding conventions.  JS numbers are rationals; `Option ℚ` embeds a
possibly-missing number, with `none` standing for `undefined`/`NaN`
(which propagate through subtraction).  Stateful objects become explicit
state-passing functions, and the calls made to the host-supplied handler
set are collected in an ordered call log.  The container's bounding box is
passed to each call (the source recomputes `getBoundingClientRect()` on
every coordinate conversion, so the value at call time is what matters).
-/

namespace PeaksVerify

/-- DOM / Konva event kinds reaching the drag handler: exactly the event
types the source registers listeners for. -/
inductive DEType
  | mousedown | touchstart | mousemove | touchmove
  | mouseup | touchend | blur | wheel | contextmenu
deriving DecidableEq

/-- One touch point (`Touch.clientX` / `Touch.clientY`). -/
structure DomTouch where
  clientX : ℚ
  clientY : ℚ
deriving DecidableEq

/-- A raw DOM event as consumed by the source.  `clientX`/`clientY` are
`none` when the property is absent on the event object (JS `undefined`:
touch events and `blur` focus events carry no client coordinates). -/
structure DomEvent where
  type : DEType
  clientX : Option ℚ := none
  clientY : Option ℚ := none
  touches : List DomTouch := []
  changedTouches : List DomTouch := []
  cancelable : Bool := false
deriving DecidableEq

/-- JS subtraction whose left operand may be `undefined`/`NaN`
(`undefined - q` is `NaN`, kept as `none`). -/
def jsSub (a : Option ℚ) (b : ℚ) : Option ℚ := a.map (fun x => x - b)

/-- JS subtraction with both operands possibly `undefined`/`NaN`. -/
def jsSub2 (a b : Option ℚ) : Option ℚ :=
  match a, b with
  | some x, some y => some (x - y)
  | _, _ => none

/-- `Math.floor`, kept in ℚ. -/
def jsFloor (q : ℚ) : ℚ := ((⌊q⌋ : ℤ) : ℚ)

/-- `touches[0]` / `changedTouches[0]`.  An event with no touch points is a
host-contract violation and out of scope, so a junk default is supplied. -/
def firstTouch (ts : List DomTouch) : DomTouch := ts.headD ⟨0, 0⟩

/-- The two bound methods the source registers as window-level listeners
(`this._mouseMove` and `this._mouseUp`). -/
inductive BoundMethod
  | moveHandler | upHandler
deriving DecidableEq

/-- A window-level listener registration: `(event name, bound method)`. -/
abbrev WinListener := DEType × BoundMethod

/-- The five window-level registrations performed on every press
(`_mouseDown`, lines adding mousemove/touchmove/mouseup/touchend/blur). -/
def pressListeners : List WinListener :=
  [(DEType.mousemove, BoundMethod.moveHandler),
   (DEType.touchmove, BoundMethod.moveHandler),
   (DEType.mouseup, BoundMethod.upHandler),
   (DEType.touchend, BoundMethod.upHandler),
   (DEType.blur, BoundMethod.upHandler)]

/-- `window.addEventListener`: a second registration of the same
(type, listener) pair is a no-op. -/
def addWinListener (ls : List WinListener) (l : WinListener) : List WinListener :=
  if l ∈ ls then ls else ls ++ [l]

/-- `window.removeEventListener` for one (type, listener) pair. -/
def removeWinListener (ls : List WinListener) (l : WinListener) : List WinListener :=
  ls.filter (fun x => x ≠ l)

/-- The mutable fields of a `MouseDragHandler`.  `_mouseDownClientX/Y`
start as JS `null` (embedded `none`); they are assigned on every press
before any use. -/
structure DragState where
  dragging : Bool := false
  mouseDownClientX : Option ℚ := none
  mouseDownClientY : Option ℚ := none
  windowListeners : List WinListener := []
deriving DecidableEq

/-- A freshly constructed handler (constructor state). -/
def initDrag : DragState := {}

/-- One call made to the host-supplied handler set, with the argument
values the source passes.  (The host is taken to supply all four
handlers; the source merely guards each invocation with a presence
check.) -/
inductive HCall
  | down (x y : Option ℚ) (rawEvent : DomEvent)
  | move (kind : DEType) (x y : Option ℚ) (rawEvent : DomEvent)
  | up (x y : Option ℚ) (rawEvent : DomEvent)
  | wheel (rawEvent : DomEvent)
deriving DecidableEq

/-- The container's current bounding box origin
(`getBoundingClientRect().left/top`). -/
structure Rect where
  left : ℚ
  top : ℚ
deriving DecidableEq

/-- `_getMousePosX`: client X minus the container's bounding-box left,
with the box taken at call time (the source recomputes it per call). -/
def getMousePosX (containerRect : Rect) (clientX : Option ℚ) : Option ℚ :=
  jsSub clientX containerRect.left

/-- `_getMousePosY`: client Y minus the container's bounding-box top. -/
def getMousePosY (containerRect : Rect) (clientY : Option ℚ) : Option ℚ :=
  jsSub clientY containerRect.top

/-- `_mouseDown`.  The marker-passthrough guard reads `this.__handleDrag`,
which is never assigned (the constructor sets `_handleDrag`), so that
branch is dead and is not modelled.  Note the asymmetry in the source:
the X passed to `onMouseDown` comes from the stored `_mouseDownClientX`
(floored for touch), while the Y comes from `event.evt.clientY` directly. -/
def mouseDownHandler (containerRect : Rect) (s : DragState) (e : DomEvent) :
    DragState × List HCall :=
  let s1 :=
    if e.type = DEType.touchstart then
      { s with mouseDownClientX := some (jsFloor (firstTouch e.touches).clientX),
               mouseDownClientY := some (jsFloor (firstTouch e.touches).clientY) }
    else
      { s with mouseDownClientX := e.clientX, mouseDownClientY := e.clientY }
  let posX := getMousePosX containerRect s1.mouseDownClientX
  let posY := getMousePosY containerRect e.clientY
  let s2 := { s1 with windowListeners := pressListeners.foldl addWinListener s1.windowListeners }
  (s2, [HCall.down posX posY e])

/-- The client X a `_mouseMove` call works with (floored first changed
touch for `touchmove`, else the event's own `clientX`). -/
def moveClientX (e : DomEvent) : Option ℚ :=
  if e.type = DEType.touchmove then some (jsFloor (firstTouch e.changedTouches).clientX)
  else e.clientX

/-- The client Y a `_mouseMove` call works with. -/
def moveClientY (e : DomEvent) : Option ℚ :=
  if e.type = DEType.touchmove then some (jsFloor (firstTouch e.changedTouches).clientY)
  else e.clientY

/-- `_mouseMove`.  The source computes
`delta = Math.sqrt((cx - downX)^2 + (cy - downY)^2)` and tests `delta > 3`;
since the radicand is nonnegative this is embedded as the equivalent
square comparison `(cx - downX)^2 + (cy - downY)^2 > 9` (for `d ≥ 0`,
`Math.sqrt d > 3 ↔ d > 9`), a `NaN` delta comparing false.  The disabled
(commented out) vertical-movement early return is not active and is not
modelled; `onMouseMove` is always invoked, with the event kind. -/
def mouseMoveHandler (containerRect : Rect) (s : DragState) (e : DomEvent) :
    DragState × List HCall :=
  let cx := moveClientX e
  let cy := moveClientY e
  let deltaSq : Option ℚ :=
    match jsSub2 cx s.mouseDownClientX, jsSub2 cy s.mouseDownClientY with
    | some dx, some dy => some (dx ^ 2 + dy ^ 2)
    | _, _ => none
  let over : Bool :=
    match deltaSq with
    | some d => decide (d > 9)
    | none => false
  let s1 := if over then { s with dragging := true } else s
  (s1, [HCall.move e.type (getMousePosX containerRect cx) (getMousePosY containerRect cy) e])

/-- The client X a `_mouseUp` call works with (floored first changed touch
for `touchend`, else the event's own `clientX`; a `blur` event has none). -/
def releaseClientX (e : DomEvent) : Option ℚ :=
  if e.type = DEType.touchend then some (jsFloor (firstTouch e.changedTouches).clientX)
  else e.clientX

/-- The client Y a `_mouseUp` call works with. -/
def releaseClientY (e : DomEvent) : Option ℚ :=
  if e.type = DEType.touchend then some (jsFloor (firstTouch e.changedTouches).clientY)
  else e.clientY

/-- `_mouseUp`: invokes `onMouseUp`, then removes the five window
listeners, then clears `_dragging` — the definition mirrors that order
(a cancelable `touchend` also gets `preventDefault()`, which has no
model-visible state). -/
def mouseUpHandler (containerRect : Rect) (s : DragState) (e : DomEvent) :
    DragState × List HCall :=
  let call := HCall.up (getMousePosX containerRect (releaseClientX e))
                       (getMousePosY containerRect (releaseClientY e)) e
  let s1 := { s with windowListeners := pressListeners.foldl removeWinListener s.windowListeners }
  let s2 := { s1 with dragging := false }
  (s2, [call])

/-- Delivery of one event by the host event system.  Stage listeners
(mousedown/touchstart/contextmenu) and the container wheel listener are
registered at construction and never removed (the source defines no
teardown), so those always reach the handler; window-level
move/release/blur events reach it only while the matching registration
from `pressListeners` is present. -/
def dispatch (containerRect : Rect) (s : DragState) (e : DomEvent) :
    DragState × List HCall :=
  match e.type with
  | DEType.mousedown => mouseDownHandler containerRect s e
  | DEType.touchstart => mouseDownHandler containerRect s e
  | DEType.contextmenu => (s, [])
  | DEType.wheel => (s, [HCall.wheel e])
  | DEType.mousemove =>
      if (DEType.mousemove, BoundMethod.moveHandler) ∈ s.windowListeners then
        mouseMoveHandler containerRect s e
      else (s, [])
  | DEType.touchmove =>
      if (DEType.touchmove, BoundMethod.moveHandler) ∈ s.windowListeners then
        mouseMoveHandler containerRect s e
      else (s, [])
  | DEType.mouseup =>
      if (DEType.mouseup, BoundMethod.upHandler) ∈ s.windowListeners then
        mouseUpHandler containerRect s e
      else (s, [])
  | DEType.touchend =>
      if (DEType.touchend, BoundMethod.upHandler) ∈ s.windowListeners then
        mouseUpHandler containerRect s e
      else (s, [])
  | DEType.blur =>
      if (DEType.blur, BoundMethod.upHandler) ∈ s.windowListeners then
        mouseUpHandler containerRect s e
      else (s, [])

/-- Deliver a list of events in order, collecting all handler calls. -/
def runEvents (containerRect : Rect) : DragState → List DomEvent → DragState × List HCall
  | s, [] => (s, [])
  | s, e :: es =>
      let r := dispatch containerRect s e
      let rest := runEvents containerRect r.1 es
      (rest.1, r.2 ++ rest.2)

/-- A plain mouse press event at client coordinates `(x, y)`. -/
def mouseDownEvt (x y : ℚ) : DomEvent :=
  { type := DEType.mousedown, clientX := some x, clientY := some y }

/-- A plain mouse move event at client coordinates `(x, y)`. -/
def mouseMoveEvt (x y : ℚ) : DomEvent :=
  { type := DEType.mousemove, clientX := some x, clientY := some y }

/-- A plain mouse release event at client coordinates `(x, y)`. -/
def mouseUpEvt (x y : ℚ) : DomEvent :=
  { type := DEType.mouseup, clientX := some x, clientY := some y }

/-- The handler state right after a mouse press at `(x, y)` on a fresh
handler. -/
def pressState (containerRect : Rect) (x y : ℚ) : DragState :=
  (dispatch containerRect initDrag (mouseDownEvt x y)).1

/-- Deliver a list of mouse moves (client coordinates). -/
def runMoves (containerRect : Rect) (s : DragState) (moves : List (ℚ × ℚ)) :
    DragState × List HCall :=
  runEvents containerRect s (moves.map (fun p => mouseMoveEvt p.1 p.2))

/-- A container whose bounding box origin is `(0, 0)`. -/
def rect0 : Rect := ⟨0, 0⟩

/-- The failing touch press for claim C8: first touch point at client
coordinates (10.7, 20.9); being a DOM `TouchEvent`, the raw event carries
no own `clientX`/`clientY`. -/
def c8TouchEvt : DomEvent :=
  { type := DEType.touchstart, touches := [⟨107 / 10, 209 / 10⟩] }

/-! ### SegmentsLayer embedding

`src/segments-layer.js`.  Segment objects are mutable and shared between
the store and the layer's shapes, so the model keeps a `heap` of current
segment values keyed by identity; a shape holds its segment's identity and
reads the live value through the heap, exactly as `shape.getSegment()`
returns the live object.  The segment store itself (`peaks.segments`) and
the `Segment` class are repository code not under src/, so their two
operations used here (`find` and `isVisible`) are modelled from the spec.
Calls to `this._layer.draw()` are counted (`drawCalls`) and calls to
`segmentShape.destroy()` are logged in order (`destroyCalls`). -/

/-- A segment object's current attribute values. -/
structure Segment where
  id : ℕ
  startTime : ℚ
  endTime : ℚ
  hidden : Bool
deriving DecidableEq

/-- Modelled from the spec: `Segment.isVisible(startTime, endTime)` — the
`Segment` class is not under src/; per the spec (§4.1 step 3 and the
source's own doc comment on `_removeInvisibleSegments`) a segment is
visible in a range exactly when it overlaps `[startTime, endTime)`. -/
def Segment.isVisible (s : Segment) (startTime endTime : ℚ) : Bool :=
  decide (s.startTime < endTime) && decide (startTime < s.endTime)

/-- The model-visible state of one `SegmentShape` (drawable proxy):
its segment's identity and whether `hide()` has been called on it. -/
structure SegmentShape where
  segmentId : ℕ
  hiddenShape : Bool
deriving DecidableEq

/-- The store notification topics the layer subscribes to at
construction. -/
inductive Topic
  | update | add | remove | hide | removeAll | dragged
deriving DecidableEq

/-- All six topics, in the constructor's subscription order. -/
def allTopics : List Topic :=
  [Topic.update, Topic.add, Topic.remove, Topic.hide, Topic.removeAll, Topic.dragged]

/-- The view collaborator: name, current frame offset and width (pixels),
and the pixel→time transform. -/
structure ViewModel where
  name : String
  frameOffset : ℚ
  width : ℚ
  pixelsToTime : ℚ → ℚ

/-- The state of a `SegmentsLayer` together with the segment store it
observes. `heap` holds every segment object's current values; `storeIds`
is the store's membership (what `find` queries); `segmentShapes` is the
layer's proxy map (JS object: association by identity); `subs` the
currently registered store subscriptions. -/
structure LayerState where
  heap : List Segment
  storeIds : List ℕ
  segmentShapes : List (ℕ × SegmentShape)
  subs : List Topic
  view : ViewModel
  drawCalls : ℕ
  destroyCalls : List ℕ

/-- A freshly constructed layer observing an empty store. -/
def initLayer (view : ViewModel) : LayerState :=
  { heap := [], storeIds := [], segmentShapes := [], subs := allTopics,
    view := view, drawCalls := 0, destroyCalls := [] }

/-- Look up a segment object's current value by identity. -/
def heapFind (st : LayerState) (i : ℕ) : Option Segment :=
  st.heap.find? (fun s => s.id == i)

/-- Look up the proxy-map entry for an identity
(`this._segmentShapes[id]`). -/
def shapeFind (st : LayerState) (i : ℕ) : Option (ℕ × SegmentShape) :=
  st.segmentShapes.find? (fun en => en.1 == i)

/-- The identities currently holding a proxy in the layer's proxy map. -/
def keys (st : LayerState) : List ℕ := st.segmentShapes.map Prod.fst

/-- `SegmentsLayer.prototype.draw`: a no-op when the view is the
overview, otherwise `this._layer.draw()` (counted). -/
def LayerState.draw (st : LayerState) : LayerState :=
  if st.view.name = "overview" then st else { st with drawCalls := st.drawCalls + 1 }

/-- JS object assignment `this._segmentShapes[id] = shape`.  Object keys
are unique; an overwrite keeps the key set and lookups identical (its
insertion-order position differs from JS, which never matters here since
overwrites only arise on ill-formed inputs). -/
def setShape (m : List (ℕ × SegmentShape)) (i : ℕ) (sh : SegmentShape) :
    List (ℕ × SegmentShape) :=
  m.filter (fun en => en.1 ≠ i) ++ [(i, sh)]

/-- `_addSegmentShape`: construct a `SegmentShape` and store it in the
proxy map.  (For a non-overview view the shape is also added to the Konva
layer; the drawable tree is outside the model.) -/
def addSegmentShape (st : LayerState) (seg : Segment) : LayerState :=
  { st with segmentShapes := setShape st.segmentShapes seg.id ⟨seg.id, false⟩ }

/-- `_removeSegment`: when a proxy exists for the identity, call its
`destroy()` and delete the map entry; otherwise a no-op. -/
def removeSegment (st : LayerState) (seg : Segment) : LayerState :=
  match shapeFind st seg.id with
  | some _ =>
      { st with destroyCalls := st.destroyCalls ++ [seg.id],
                segmentShapes := st.segmentShapes.filter (fun en => en.1 ≠ seg.id) }
  | none => st

/-- `_hideSegment`: when a proxy exists, call the proxy's `hide()` and
mark the underlying segment object hidden (`segment.isHidden(true)`);
otherwise a no-op — in particular the segment is then not marked. -/
def hideSegment (st : LayerState) (seg : Segment) : LayerState :=
  match shapeFind st seg.id with
  | some _ =>
      { st with
        segmentShapes := st.segmentShapes.map (fun en =>
          if en.1 = seg.id then (en.1, { en.2 with hiddenShape := true }) else en),
        heap := st.heap.map (fun s =>
          if s.id = seg.id then { s with hidden := true } else s) }
  | none => st

/-- `_updateSegment` = `_findOrAddSegmentShape` + `updatePosition()`:
creates the proxy when absent; repositioning has no model-visible state. -/
def updateSegmentOp (st : LayerState) (seg : Segment) : LayerState :=
  match shapeFind st seg.id with
  | some _ => st
  | none => addSegmentShape st seg

/-- Modelled from the spec: the store query
`this._peaks.segments.find(startTime, endTime)` — the store is not under
src/; per the spec it returns the store's segments overlapping
`[startTime, endTime)`. -/
def LayerState.findSegments (st : LayerState) (startTime endTime : ℚ) : List Segment :=
  (st.storeIds.filterMap (fun i => heapFind st i)).filter
    (fun s => s.isVisible startTime endTime)

/-- One iteration of the `for...in` loop of `_removeInvisibleSegments`:
fetch the live segment (`shape.getSegment()`) and remove it when not
visible, counting removals.  (A missing heap entry cannot arise for a
shape created by the layer; the model then skips.) -/
def removeStep (startTime endTime : ℚ) (acc : LayerState × ℕ) (en : ℕ × SegmentShape) :
    LayerState × ℕ :=
  match heapFind acc.1 en.1 with
  | some seg =>
      if seg.isVisible startTime endTime then acc
      else (removeSegment acc.1 seg, acc.2 + 1)
  | none => acc

/-- `_removeInvisibleSegments`: scan the proxy map's entries (the loop's
key snapshot), removing every proxy whose live segment no longer overlaps
the range; returns the new state and the removal count. -/
def removeInvisibleSegments (st : LayerState) (startTime endTime : ℚ) :
    LayerState × ℕ :=
  st.segmentShapes.foldl (removeStep startTime endTime) (st, 0)

/-- `updateSegments` (the spec's `syncVisible`): query the store, create
or reposition a proxy for each returned segment, remove the proxies that
left the range, and draw once iff the query returned segments or any
proxy was removed (`count > 0`). -/
def updateSegments (st : LayerState) (startTime endTime : ℚ) : LayerState :=
  let segments := st.findSegments startTime endTime
  let count := segments.length
  let st1 := segments.foldl updateSegmentOp st
  let r := removeInvisibleSegments st1 startTime endTime
  if count + r.2 > 0 then r.1.draw else r.1

/-- `pixelsToTime(frameOffset)`. -/
def frameStartTime (st : LayerState) : ℚ :=
  st.view.pixelsToTime st.view.frameOffset

/-- `pixelsToTime(frameOffset + width)`. -/
def frameEndTime (st : LayerState) : ℚ :=
  st.view.pixelsToTime (st.view.frameOffset + st.view.width)

/-- `_onSegmentsUpdate`: destroy the existing proxy if any, recreate the
proxy if the (already externally mutated) segment is visible, and when
either happened run a full `updateSegments` pass over the current visible
range. -/
def onSegmentsUpdate (st : LayerState) (segment : Segment) : LayerState :=
  let t0 := frameStartTime st
  let t1 := frameEndTime st
  let hadShape := (shapeFind st segment.id).isSome
  let st1 := if hadShape then removeSegment st segment else st
  let vis := segment.isVisible t0 t1
  let st2 := if vis then addSegmentShape st1 segment else st1
  if hadShape || vis then updateSegments st2 t0 t1 else st2

/-- The per-segment step of `_onSegmentsAdd`: create a proxy for a newly
added segment when it is visible. -/
def addVisibleStep (startTime endTime : ℚ) (st : LayerState) (seg : Segment) :
    LayerState :=
  if seg.isVisible startTime endTime then addSegmentShape st seg else st

/-- `_onSegmentsAdd`: create proxies for the visible new segments, then
run one `updateSegments` pass. -/
def onSegmentsAdd (st : LayerState) (segments : List Segment) : LayerState :=
  let t0 := frameStartTime st
  let t1 := frameEndTime st
  updateSegments (segments.foldl (addVisibleStep t0 t1) st) t0 t1

/-- `_onSegmentsHide`: hide each given segment, then one draw. -/
def onSegmentsHide (st : LayerState) (segments : List Segment) : LayerState :=
  (segments.foldl hideSegment st).draw

/-- `_onSegmentsRemove`: remove each given segment's proxy, then one
draw. -/
def onSegmentsRemove (st : LayerState) (segments : List Segment) : LayerState :=
  (segments.foldl removeSegment st).draw

/-- `_onSegmentsRemoveAll`: `layer.removeChildren()` (drawable tree,
outside the model — the shapes' `destroy()` is not called), clear the
proxy map, one draw. -/
def onSegmentsRemoveAll (st : LayerState) : LayerState :=
  ({ st with segmentShapes := [] }).draw

/-- `_onSegmentsDragged`: reposition (or create) that segment's proxy,
one draw. -/
def onSegmentsDragged (st : LayerState) (segment : Segment) : LayerState :=
  (updateSegmentOp st segment).draw

/-- `SegmentsLayer.prototype.destroy`: call `destroy()` on every shape in
the proxy map — note the map is NOT cleared — then `peaks.off` for
`segments.update/add/remove/remove_all/dragged`; note `segments.hide` is
NOT unsubscribed. -/
def LayerState.destroy (st : LayerState) : LayerState :=
  { st with
    destroyCalls := st.destroyCalls ++ st.segmentShapes.map Prod.fst,
    subs := st.subs.filter (fun t =>
      t ∉ ([Topic.update, Topic.add, Topic.remove, Topic.removeAll, Topic.dragged]
            : List Topic)) }

/-- A store notification together with the external store change it
reports. -/
inductive StoreEvent
  | update (seg : Segment)
  | add (segs : List Segment)
  | remove (segs : List Segment)
  | hide (segs : List Segment)
  | removeAll
  | dragged (seg : Segment)

/-- The topic a store event is published on. -/
def StoreEvent.topic : StoreEvent → Topic
  | .update _ => Topic.update
  | .add _ => Topic.add
  | .remove _ => Topic.remove
  | .hide _ => Topic.hide
  | .removeAll => Topic.removeAll
  | .dragged _ => Topic.dragged

/-- Modelled from the spec: the store-side effect preceding each
notification (the store is not under src/).  `update`/`dragged` report an
already performed external mutation of the segment object; `add` appends
new segment objects; `remove`/`remove_all` drop store membership (the
objects stay alive — shapes may still reference them); `hide` performs no
store-side change (the marking is done by the layer's handler). -/
def applyStoreMutation (st : LayerState) : StoreEvent → LayerState
  | .update seg =>
      { st with heap := st.heap.map (fun s => if s.id = seg.id then seg else s) }
  | .dragged seg =>
      { st with heap := st.heap.map (fun s => if s.id = seg.id then seg else s) }
  | .add segs =>
      { st with heap := st.heap ++ segs,
                storeIds := st.storeIds ++ segs.map Segment.id }
  | .remove segs =>
      { st with storeIds :=
          st.storeIds.filter (fun i => ¬ segs.any (fun s => s.id == i)) }
  | .hide _ => st
  | .removeAll => { st with storeIds := [] }

/-- Run the layer's handler for one event (the notification payload is
the event's segment list / segment). -/
def runHandler (st : LayerState) : StoreEvent → LayerState
  | .update seg => onSegmentsUpdate st seg
  | .add segs => onSegmentsAdd st segs
  | .remove segs => onSegmentsRemove st segs
  | .hide segs => onSegmentsHide st segs
  | .removeAll => onSegmentsRemoveAll st
  | .dragged seg => onSegmentsDragged st seg

/-- Deliver one store event: apply the store-side change, then notify the
layer — its handler runs only while the layer is subscribed to the
topic. -/
def processEvent (st : LayerState) (e : StoreEvent) : LayerState :=
  let st1 := applyStoreMutation st e
  if e.topic ∈ st1.subs then runHandler st1 e else st1

/-- Deliver a list of store events in order. -/
def replayEvents (st : LayerState) (evs : List StoreEvent) : LayerState :=
  evs.foldl processEvent st

/-- Well-formedness of one event against the current store: updates and
drags target a stored segment; added segments have fresh identities (the
spec's "identity unique, stable"). -/
def WFeventB (st : LayerState) : StoreEvent → Bool
  | .update seg => st.storeIds.contains seg.id
  | .dragged seg => st.storeIds.contains seg.id
  | .add segs => segs.all (fun s => (heapFind st s.id).isNone)
  | .remove _ => true
  | .hide _ => true
  | .removeAll => true

/-- Well-formedness of a whole event trace. -/
def WFtraceB (st : LayerState) : List StoreEvent → Bool
  | [] => true
  | e :: es => WFeventB st e && WFtraceB (processEvent st e) es

/-- The layer invariant: every identity holding a proxy is in the store,
and every stored identity has a live segment object. -/
def Inv (st : LayerState) : Prop :=
  (∀ i ∈ keys st, i ∈ st.storeIds) ∧ (∀ i ∈ st.storeIds, i ∈ st.heap.map Segment.id)

/-- A concrete non-overview (zoomable) view over pixel range `[0, 20)`
with the identity pixel→time transform. -/
def zoomView : ViewModel :=
  { name := "zoomview", frameOffset := 0, width := 20, pixelsToTime := fun px => px }

/-- Whether the proxy for identity `i` would be removed by a
`_removeInvisibleSegments` scan over `[startTime, endTime)`: its live
segment exists and is not visible there. -/
def badB (st : LayerState) (startTime endTime : ℚ) (i : ℕ) : Bool :=
  match heapFind st i with
  | some s => ! s.isVisible startTime endTime
  | none => false

/-- Scenario data: segment 1 spanning `[5, 10)`, visible in `[0, 20)`. -/
def seg1 : Segment := ⟨1, 5, 10, false⟩

/-- Segment 1 with times `[30, 40)` — outside the visible range
`[0, 20)` (the updated value in claim C2's scenario). -/
def seg1Far : Segment := ⟨1, 30, 40, false⟩

/-- The layer after `segments.add([seg1])` on a fresh zoom-view layer:
segment 1 is stored and holds a proxy, one redraw has happened. -/
def layer1 : LayerState :=
  replayEvents (initLayer zoomView) [StoreEvent.add [seg1]]

/-- The layer after adding only the out-of-range segment: it is stored
but holds no proxy. -/
def layerFar : LayerState :=
  replayEvents (initLayer zoomView) [StoreEvent.add [seg1Far]]

/-- The layer after `segments.add([seg1])` then `segments.hide([seg1])`:
segment 1 is stored, marked hidden, and still holds a (hidden) proxy. -/
def layerHidden : LayerState :=
  replayEvents (initLayer zoomView) [StoreEvent.add [seg1], StoreEvent.hide [seg1]]

/-! ### Drag handler lemmas -/

lemma pressState_eq (containerRect : Rect) (x y : ℚ) :
    pressState containerRect x y =
      { dragging := false, mouseDownClientX := some x, mouseDownClientY := some y,
        windowListeners := pressListeners } := rfl

lemma foldl_removeWinListener_press :
    pressListeners.foldl removeWinListener pressListeners = [] := by decide

lemma foldl_addWinListener_press :
    pressListeners.foldl addWinListener pressListeners = pressListeners := by decide

lemma dispatch_move (containerRect : Rect) (s : DragState) (x0 y0 mx my : ℚ)
    (h1 : s.windowListeners = pressListeners)
    (h2 : s.mouseDownClientX = some x0)
    (h3 : s.mouseDownClientY = some y0) :
    dispatch containerRect s (mouseMoveEvt mx my)
      = (if (mx - x0) ^ 2 + (my - y0) ^ 2 > 9 then { s with dragging := true } else s,
         [HCall.move DEType.mousemove (some (mx - containerRect.left))
            (some (my - containerRect.top)) (mouseMoveEvt mx my)]) := by
  have hmem : (DEType.mousemove, BoundMethod.moveHandler) ∈ s.windowListeners := by
    rw [h1]; decide
  simp only [dispatch, mouseMoveEvt]
  rw [if_pos hmem]
  simp only [mouseMoveHandler, moveClientX, moveClientY, h2, h3, jsSub2,
    getMousePosX, getMousePosY, jsSub, Option.map_some, mouseMoveEvt,
    reduceCtorEq, if_false, decide_eq_true_eq]
  split <;> simp_all

lemma runMoves_spec (containerRect : Rect) (x0 y0 : ℚ) :
    ∀ (moves : List (ℚ × ℚ)) (s : DragState),
      s.windowListeners = pressListeners →
      s.mouseDownClientX = some x0 →
      s.mouseDownClientY = some y0 →
      (runMoves containerRect s moves).1.dragging
          = (s.dragging || moves.any (fun p => decide ((p.1 - x0) ^ 2 + (p.2 - y0) ^ 2 > 9)))
      ∧ (runMoves containerRect s moves).1.windowListeners = pressListeners
      ∧ (runMoves containerRect s moves).1.mouseDownClientX = some x0
      ∧ (runMoves containerRect s moves).1.mouseDownClientY = some y0
      ∧ (runMoves containerRect s moves).2
          = moves.map (fun p => HCall.move DEType.mousemove
              (some (p.1 - containerRect.left)) (some (p.2 - containerRect.top))
              (mouseMoveEvt p.1 p.2)) := by
  intro moves
  induction moves with
  | nil =>
      intro s h1 h2 h3
      simp [runMoves, runEvents, h1, h2, h3]
  | cons p rest ih =>
      intro s h1 h2 h3
      have hstep := dispatch_move containerRect s x0 y0 p.1 p.2 h1 h2 h3
      have hnext :
          runMoves containerRect s (p :: rest)
            = ((runMoves containerRect
                  (dispatch containerRect s (mouseMoveEvt p.1 p.2)).1 rest).1,
               (dispatch containerRect s (mouseMoveEvt p.1 p.2)).2
                 ++ (runMoves containerRect
                      (dispatch containerRect s (mouseMoveEvt p.1 p.2)).1 rest).2) := by
        simp [runMoves, runEvents]
      by_cases hgt : (p.1 - x0) ^ 2 + (p.2 - y0) ^ 2 > 9
      · have hs1 := hstep
        rw [if_pos hgt] at hs1
        have hr := ih { s with dragging := true } h1 h2 h3
        rw [hnext, hs1]
        refine ⟨?_, hr.2.1, hr.2.2.1, hr.2.2.2.1, ?_⟩
        · simpa [hgt] using hr.1
        · simp [hr.2.2.2.2, hgt]
      · have hs1 := hstep
        rw [if_neg hgt] at hs1
        have hr := ih s h1 h2 h3
        rw [hnext, hs1]
        refine ⟨?_, hr.2.1, hr.2.2.1, hr.2.2.2.1, ?_⟩
        · simpa [hgt] using hr.1
        · simp [hr.2.2.2.2, hgt]

/-! ### Drag handler claim theorems -/

/-- Claim C6: after a press at origin `(x0, y0)`, `isDragging()` (the
`dragging` field) reports `false` until some move's squared Euclidean
distance from the origin exceeds `9` (distance > 3 px) and reports `true`
for every longer prefix of the move sequence from then on (`List.any` of a
prefix is monotone in its length); every move invokes `onMouseMove` with
the move's event kind and container-relative coordinates regardless of the
threshold.  Concretely, from origin `(100,100)`, after a move to
`(102,101)` (distance √5 ≈ 2.24) dragging is still `false`, and after a
further move to `(104,100)` (distance 4) it is `true`. -/
theorem dragThreshold_spec :
    (∀ (containerRect : Rect) (x0 y0 : ℚ) (moves : List (ℚ × ℚ)) (n : ℕ),
      ((runMoves containerRect (pressState containerRect x0 y0) (moves.take n)).1.dragging
          = (moves.take n).any (fun p => decide ((p.1 - x0) ^ 2 + (p.2 - y0) ^ 2 > 9)))
      ∧ (runMoves containerRect (pressState containerRect x0 y0) moves).2
          = moves.map (fun p => HCall.move DEType.mousemove
              (some (p.1 - containerRect.left)) (some (p.2 - containerRect.top))
              (mouseMoveEvt p.1 p.2)))
    ∧ (∀ (containerRect : Rect) (s : DragState) (e : DomEvent),
        e.type = DEType.mousemove ∨ e.type = DEType.touchmove →
        (e.type, BoundMethod.moveHandler) ∈ s.windowListeners →
        (dispatch containerRect s e).2
          = [HCall.move e.type (getMousePosX containerRect (moveClientX e))
              (getMousePosY containerRect (moveClientY e)) e])
    ∧ (runMoves rect0 (pressState rect0 100 100) [(102, 101)]).1.dragging = false
    ∧ (runMoves rect0 (pressState rect0 100 100) [(102, 101), (104, 100)]).1.dragging
        = true := by
  refine ⟨fun containerRect x0 y0 moves n => ⟨?_, ?_⟩, ?_, ?_, ?_⟩
  · have h := runMoves_spec containerRect x0 y0 (moves.take n)
      (pressState containerRect x0 y0) (by rw [pressState_eq]) (by rw [pressState_eq])
      (by rw [pressState_eq])
    rw [h.1, pressState_eq]
    simp
  · exact (runMoves_spec containerRect x0 y0 moves (pressState containerRect x0 y0)
      (by rw [pressState_eq]) (by rw [pressState_eq]) (by rw [pressState_eq])).2.2.2.2
  · intro containerRect s e hty hmem
    obtain ⟨ty, cx, cy, t, ct, cc⟩ := e
    rcases hty with h | h <;>
      (cases h; simp only [dispatch]; rw [if_pos hmem]; rfl)
  · have h := runMoves_spec rect0 100 100 [((102 : ℚ), (101 : ℚ))]
      (pressState rect0 100 100) (by rw [pressState_eq]) (by rw [pressState_eq])
      (by rw [pressState_eq])
    rw [h.1, pressState_eq]
    norm_num
  · have h := runMoves_spec rect0 100 100 [((102 : ℚ), (101 : ℚ)), (104, 100)]
      (pressState rect0 100 100) (by rw [pressState_eq]) (by rw [pressState_eq])
      (by rw [pressState_eq])
    rw [h.1, pressState_eq]
    norm_num

/-- Witness for `dragThreshold_spec`: after a press at (100, 100), a
sub-threshold `touchmove` is still forwarded to `onMouseMove`, with the
`touchmove` event kind. -/
theorem dragThreshold_witness :
    (dispatch rect0 (pressState rect0 100 100)
        { type := DEType.touchmove, changedTouches := [⟨101, 100⟩] }).2
      = [HCall.move DEType.touchmove
          (getMousePosX rect0 (moveClientX
            { type := DEType.touchmove, changedTouches := [⟨101, 100⟩] }))
          (getMousePosY rect0 (moveClientY
            { type := DEType.touchmove, changedTouches := [⟨101, 100⟩] }))
          { type := DEType.touchmove, changedTouches := [⟨101, 100⟩] }] :=
  dragThreshold_spec.2.1 rect0 (pressState rect0 100 100)
    { type := DEType.touchmove, changedTouches := [⟨101, 100⟩] }
    (Or.inr rfl) (by decide)

/-- Claim C7: on every release delivery of a drag session (`mouseup`,
`touchend`, or `blur`), the handler invokes `onMouseUp` with the
container-relative conversion of the event's client coordinates, removes
all five window-level listeners, and resets `isDragging()` to `false`;
afterwards no move event reaches any of the handler's callbacks until the
next press.  (Within `_mouseUp` the invocation precedes the listener
removal, which precedes the flag reset, the order `mouseUpHandler`'s
definition mirrors.) -/
theorem releasePath_spec (containerRect : Rect) (s : DragState) (e : DomEvent)
    (hty : e.type = DEType.mouseup ∨ e.type = DEType.touchend ∨ e.type = DEType.blur)
    (hls : s.windowListeners = pressListeners) :
    (dispatch containerRect s e).2
        = [HCall.up (getMousePosX containerRect (releaseClientX e))
            (getMousePosY containerRect (releaseClientY e)) e]
    ∧ (dispatch containerRect s e).1.windowListeners = []
    ∧ (dispatch containerRect s e).1.dragging = false
    ∧ ∀ e2 : DomEvent, e2.type = DEType.mousemove ∨ e2.type = DEType.touchmove →
        dispatch containerRect (dispatch containerRect s e).1 e2
          = ((dispatch containerRect s e).1, []) := by
  have hrem : pressListeners.foldl removeWinListener s.windowListeners = [] := by
    rw [hls]; exact foldl_removeWinListener_press
  have hmain : dispatch containerRect s e
      = ({ s with windowListeners := [], dragging := false },
         [HCall.up (getMousePosX containerRect (releaseClientX e))
            (getMousePosY containerRect (releaseClientY e)) e]) := by
    obtain ⟨ty, cx, cy, t, ct, cc⟩ := e
    rcases hty with h | h | h <;>
      (cases h;
       simp only [dispatch, mouseUpHandler, hrem];
       rw [if_pos (by rw [hls]; decide)])
  refine ⟨by rw [hmain], by rw [hmain], by rw [hmain], ?_⟩
  intro e2 hty2
  rw [hmain]
  obtain ⟨ty2, cx2, cy2, t2, ct2, cc2⟩ := e2
  rcases hty2 with h2 | h2 <;>
    (cases h2; simp [dispatch])

/-- Witness for `releasePath_spec`: a concrete session — press at (5, 6),
release by `mouseup` at (7, 8) — ends with no window listeners and
`isDragging()` false, and the host got the container-relative release
coordinates. -/
theorem releasePath_witness :
    (dispatch rect0 (pressState rect0 5 6) (mouseUpEvt 7 8)).2
        = [HCall.up (getMousePosX rect0 (releaseClientX (mouseUpEvt 7 8)))
            (getMousePosY rect0 (releaseClientY (mouseUpEvt 7 8))) (mouseUpEvt 7 8)]
    ∧ (dispatch rect0 (pressState rect0 5 6) (mouseUpEvt 7 8)).1.windowListeners = []
    ∧ (dispatch rect0 (pressState rect0 5 6) (mouseUpEvt 7 8)).1.dragging = false :=
  ⟨(releasePath_spec rect0 (pressState rect0 5 6) (mouseUpEvt 7 8) (Or.inl rfl)
      (by decide)).1,
   (releasePath_spec rect0 (pressState rect0 5 6) (mouseUpEvt 7 8) (Or.inl rfl)
      (by decide)).2.1,
   (releasePath_spec rect0 (pressState rect0 5 6) (mouseUpEvt 7 8) (Or.inl rfl)
      (by decide)).2.2.1⟩

/-- Claim C5 (evaluation of the code): the five window-level listeners
registered on press persist under every delivery that is not a
`mouseup`/`touchend`/`blur` — the source removes them only inside
`_mouseUp`, and it defines no teardown/destroy operation that could force
the removal, so a `MouseDragHandler` discarded mid-drag keeps its window
listeners registered. -/
theorem listenersPersist_spec (containerRect : Rect) (s : DragState) (e : DomEvent)
    (hls : s.windowListeners = pressListeners)
    (hty : e.type ≠ DEType.mouseup ∧ e.type ≠ DEType.touchend ∧ e.type ≠ DEType.blur) :
    (dispatch containerRect s e).1.windowListeners = pressListeners := by
  obtain ⟨ty, cx, cy, t, ct, cc⟩ := e
  obtain ⟨h1, h2, h3⟩ := hty
  have hadd : pressListeners.foldl addWinListener s.windowListeners = pressListeners := by
    rw [hls]; exact foldl_addWinListener_press
  cases ty
  case mousedown => simp only [dispatch, mouseDownHandler]; simp [hadd]
  case touchstart => simp only [dispatch, mouseDownHandler]; simp [hadd]
  case mousemove =>
      simp only [dispatch]
      split
      · simp [mouseMoveHandler]
        split <;> simp [hls]
      · exact hls
  case touchmove =>
      simp only [dispatch]
      split
      · simp [mouseMoveHandler]
        split <;> simp [hls]
      · exact hls
  case mouseup => simp at h1
  case touchend => simp at h2
  case blur => simp at h3
  case wheel => exact hls
  case contextmenu => exact hls

/-- Witness for `listenersPersist_spec`: after a press at (1, 2) and a
move to (50, 50), the five window listeners are still registered. -/
theorem listenersPersist_witness :
    (dispatch rect0 (pressState rect0 1 2) (mouseMoveEvt 50 50)).1.windowListeners
      = pressListeners :=
  listenersPersist_spec rect0 (pressState rect0 1 2) (mouseMoveEvt 50 50) (by decide)
    ⟨by decide, by decide, by decide⟩

/-- Claim C8 (evaluation at the failing input): for a `touchstart` press
with first touch at client `(10.7, 20.9)` and container origin `(50, 20)`,
the X passed to `onMouseDown` is derived from the stored floored touch X
(`⌊10.7⌋ - 50 = -40`), but the Y is `event.evt.clientY - top` — `none`
(JS `NaN`), since the touch event has no `clientY` — and not the
floored-touch-derived `⌊20.9⌋ - 20 = 0` the claim requires. -/
theorem touchDownY_divergence :
    (dispatch ⟨50, 20⟩ initDrag c8TouchEvt).2
        = [HCall.down (some (jsFloor (107 / 10) - 50)) none c8TouchEvt]
    ∧ (none : Option ℚ) ≠ some (jsFloor (209 / 10) - 20) := by
  exact ⟨rfl, by simp⟩

/-- Claim C10: the coordinate-conversion helpers return the raw client
coordinate minus the container's current bounding-box origin — the box is
an argument of every call (the source recomputes it per call, never
caching it); concretely, with box left=50, top=20, the client point
(60, 30) converts to container-relative (10, 10). -/
theorem mousePos_spec :
    (∀ (r : Rect) (x : ℚ), getMousePosX r (some x) = some (x - r.left))
    ∧ (∀ (r : Rect) (y : ℚ), getMousePosY r (some y) = some (y - r.top))
    ∧ getMousePosX ⟨50, 20⟩ (some 60) = some 10
    ∧ getMousePosY ⟨50, 20⟩ (some 30) = some 10 :=
  ⟨fun _ _ => rfl, fun _ _ => rfl,
   by norm_num [getMousePosX, jsSub], by norm_num [getMousePosY, jsSub]⟩

/-! ### SegmentsLayer lemmas -/

lemma zoom_ne_overview : ("zoomview" : String) ≠ "overview" := by decide

lemma draw_heap (st : LayerState) : st.draw.heap = st.heap := by
  unfold LayerState.draw; split <;> rfl

lemma draw_storeIds (st : LayerState) : st.draw.storeIds = st.storeIds := by
  unfold LayerState.draw; split <;> rfl

lemma draw_segmentShapes (st : LayerState) : st.draw.segmentShapes = st.segmentShapes := by
  unfold LayerState.draw; split <;> rfl

lemma draw_subs (st : LayerState) : st.draw.subs = st.subs := by
  unfold LayerState.draw; split <;> rfl

lemma draw_view (st : LayerState) : st.draw.view = st.view := by
  unfold LayerState.draw; split <;> rfl

lemma draw_destroyCalls (st : LayerState) : st.draw.destroyCalls = st.destroyCalls := by
  unfold LayerState.draw; split <;> rfl

lemma keys_draw (st : LayerState) : keys st.draw = keys st := by
  simp [keys, draw_segmentShapes]

lemma shapeFind_isSome_iff (st : LayerState) (j : ℕ) :
    (shapeFind st j).isSome ↔ j ∈ keys st := by
  simp only [shapeFind, List.find?_isSome, keys, List.mem_map, beq_iff_eq]

lemma shapeFind_eq_none_iff (st : LayerState) (j : ℕ) :
    shapeFind st j = none ↔ j ∉ keys st := by
  rw [← shapeFind_isSome_iff, Option.not_isSome_iff_eq_none]

lemma addSegmentShape_heap (st : LayerState) (seg : Segment) :
    (addSegmentShape st seg).heap = st.heap := rfl

lemma addSegmentShape_storeIds (st : LayerState) (seg : Segment) :
    (addSegmentShape st seg).storeIds = st.storeIds := rfl

lemma addSegmentShape_subs (st : LayerState) (seg : Segment) :
    (addSegmentShape st seg).subs = st.subs := rfl

lemma addSegmentShape_view (st : LayerState) (seg : Segment) :
    (addSegmentShape st seg).view = st.view := rfl

lemma addSegmentShape_drawCalls (st : LayerState) (seg : Segment) :
    (addSegmentShape st seg).drawCalls = st.drawCalls := rfl

lemma mem_keys_addSegmentShape (st : LayerState) (seg : Segment) (j : ℕ) :
    j ∈ keys (addSegmentShape st seg) ↔ j ∈ keys st ∨ j = seg.id := by
  simp only [keys, addSegmentShape, setShape, List.map_append, List.mem_append,
    List.mem_map, List.mem_filter, List.map_cons, List.map_nil, List.mem_singleton,
    decide_eq_true_eq]
  constructor
  · rintro (⟨en, ⟨hen, hne⟩, rfl⟩ | rfl)
    · exact Or.inl ⟨en, hen, rfl⟩
    · exact Or.inr rfl
  · rintro (⟨en, hen, rfl⟩ | rfl)
    · by_cases h : en.1 = seg.id
      · exact Or.inr h
      · exact Or.inl ⟨en, ⟨hen, h⟩, rfl⟩
    · exact Or.inr rfl

lemma removeSegment_heap (st : LayerState) (seg : Segment) :
    (removeSegment st seg).heap = st.heap := by
  unfold removeSegment; cases shapeFind st seg.id <;> rfl

lemma removeSegment_storeIds (st : LayerState) (seg : Segment) :
    (removeSegment st seg).storeIds = st.storeIds := by
  unfold removeSegment; cases shapeFind st seg.id <;> rfl

lemma removeSegment_subs (st : LayerState) (seg : Segment) :
    (removeSegment st seg).subs = st.subs := by
  unfold removeSegment; cases shapeFind st seg.id <;> rfl

lemma removeSegment_view (st : LayerState) (seg : Segment) :
    (removeSegment st seg).view = st.view := by
  unfold removeSegment; cases shapeFind st seg.id <;> rfl

lemma removeSegment_drawCalls (st : LayerState) (seg : Segment) :
    (removeSegment st seg).drawCalls = st.drawCalls := by
  unfold removeSegment; cases shapeFind st seg.id <;> rfl

lemma mem_keys_removeSegment (st : LayerState) (seg : Segment) (j : ℕ) :
    j ∈ keys (removeSegment st seg) ↔ j ∈ keys st ∧ j ≠ seg.id := by
  unfold removeSegment
  cases h : shapeFind st seg.id with
  | none =>
      have hid : seg.id ∉ keys st := (shapeFind_eq_none_iff st seg.id).mp h
      constructor
      · intro hj
        refine ⟨hj, ?_⟩
        rintro rfl
        exact hid hj
      · exact fun hj => hj.1
  | some v =>
      simp only [keys, List.mem_map, List.mem_filter, decide_eq_true_eq]
      constructor
      · rintro ⟨en, ⟨hen, hne⟩, rfl⟩
        exact ⟨⟨en, hen, rfl⟩, hne⟩
      · rintro ⟨⟨en, hen, rfl⟩, hne⟩
        exact ⟨en, ⟨hen, hne⟩, rfl⟩

lemma hideSegment_segmentShapes_map (st : LayerState) (seg : Segment) :
    keys (hideSegment st seg) = keys st := by
  unfold hideSegment
  cases shapeFind st seg.id with
  | none => rfl
  | some v =>
      simp only [keys, List.map_map]
      apply List.map_congr_left
      intro en _
      by_cases h : en.1 = seg.id <;> simp [h]

lemma hideSegment_heapIds (st : LayerState) (seg : Segment) :
    (hideSegment st seg).heap.map Segment.id = st.heap.map Segment.id := by
  unfold hideSegment
  cases shapeFind st seg.id with
  | none => rfl
  | some v =>
      simp only [List.map_map]
      apply List.map_congr_left
      intro s _
      by_cases h : s.id = seg.id <;> simp [h]

lemma hideSegment_storeIds (st : LayerState) (seg : Segment) :
    (hideSegment st seg).storeIds = st.storeIds := by
  unfold hideSegment; cases shapeFind st seg.id <;> rfl

lemma hideSegment_subs (st : LayerState) (seg : Segment) :
    (hideSegment st seg).subs = st.subs := by
  unfold hideSegment; cases shapeFind st seg.id <;> rfl

lemma hideSegment_view (st : LayerState) (seg : Segment) :
    (hideSegment st seg).view = st.view := by
  unfold hideSegment; cases shapeFind st seg.id <;> rfl

lemma hideSegment_drawCalls (st : LayerState) (seg : Segment) :
    (hideSegment st seg).drawCalls = st.drawCalls := by
  unfold hideSegment; cases shapeFind st seg.id <;> rfl

lemma hideSegment_destroyCalls (st : LayerState) (seg : Segment) :
    (hideSegment st seg).destroyCalls = st.destroyCalls := by
  unfold hideSegment; cases shapeFind st seg.id <;> rfl

lemma updateSegmentOp_heap (st : LayerState) (seg : Segment) :
    (updateSegmentOp st seg).heap = st.heap := by
  unfold updateSegmentOp; cases shapeFind st seg.id <;> rfl

lemma updateSegmentOp_storeIds (st : LayerState) (seg : Segment) :
    (updateSegmentOp st seg).storeIds = st.storeIds := by
  unfold updateSegmentOp; cases shapeFind st seg.id <;> rfl

lemma updateSegmentOp_subs (st : LayerState) (seg : Segment) :
    (updateSegmentOp st seg).subs = st.subs := by
  unfold updateSegmentOp; cases shapeFind st seg.id <;> rfl

lemma updateSegmentOp_view (st : LayerState) (seg : Segment) :
    (updateSegmentOp st seg).view = st.view := by
  unfold updateSegmentOp; cases shapeFind st seg.id <;> rfl

lemma updateSegmentOp_drawCalls (st : LayerState) (seg : Segment) :
    (updateSegmentOp st seg).drawCalls = st.drawCalls := by
  unfold updateSegmentOp; cases shapeFind st seg.id <;> rfl

lemma mem_keys_updateSegmentOp (st : LayerState) (seg : Segment) (j : ℕ) :
    j ∈ keys (updateSegmentOp st seg) ↔ j ∈ keys st ∨ j = seg.id := by
  unfold updateSegmentOp
  cases h : shapeFind st seg.id with
  | none => exact mem_keys_addSegmentShape st seg j
  | some v =>
      have hid : seg.id ∈ keys st := by
        rw [← shapeFind_isSome_iff, h]; rfl
      constructor
      · exact fun hj => Or.inl hj
      · rintro (hj | rfl)
        · exact hj
        · exact hid

lemma heapFind_some_id {st : LayerState} {i : ℕ} {s : Segment}
    (h : heapFind st i = some s) : s.id = i := by
  unfold heapFind at h
  have hp := List.find?_some h
  simpa using hp

lemma heapFind_isSome_iff (st : LayerState) (j : ℕ) :
    (heapFind st j).isSome ↔ j ∈ st.heap.map Segment.id := by
  simp only [heapFind, List.find?_isSome, List.mem_map, beq_iff_eq]

lemma heapFind_congr {st1 st2 : LayerState} (h : st1.heap = st2.heap) (i : ℕ) :
    heapFind st1 i = heapFind st2 i := by
  unfold heapFind; rw [h]

lemma badB_congr {st1 st2 : LayerState} (h : st1.heap = st2.heap)
    (startTime endTime : ℚ) (i : ℕ) :
    badB st1 startTime endTime i = badB st2 startTime endTime i := by
  unfold badB; rw [heapFind_congr h]

lemma foldl_updateSegmentOp_spec (segs : List Segment) :
    ∀ st : LayerState,
      ((segs.foldl updateSegmentOp st).heap = st.heap
      ∧ (segs.foldl updateSegmentOp st).storeIds = st.storeIds
      ∧ (segs.foldl updateSegmentOp st).subs = st.subs
      ∧ (segs.foldl updateSegmentOp st).view = st.view
      ∧ (segs.foldl updateSegmentOp st).drawCalls = st.drawCalls)
      ∧ ∀ j, j ∈ keys (segs.foldl updateSegmentOp st)
          ↔ j ∈ keys st ∨ j ∈ segs.map Segment.id := by
  induction segs with
  | nil =>
      intro st
      exact ⟨⟨rfl, rfl, rfl, rfl, rfl⟩, fun j => by simp⟩
  | cons s rest ih =>
      intro st
      have h := ih (updateSegmentOp st s)
      simp only [List.foldl_cons]
      refine ⟨⟨h.1.1.trans (updateSegmentOp_heap st s),
              h.1.2.1.trans (updateSegmentOp_storeIds st s),
              h.1.2.2.1.trans (updateSegmentOp_subs st s),
              h.1.2.2.2.1.trans (updateSegmentOp_view st s),
              h.1.2.2.2.2.trans (updateSegmentOp_drawCalls st s)⟩, ?_⟩
      intro j
      rw [h.2 j, mem_keys_updateSegmentOp]
      simp only [List.map_cons, List.mem_cons]
      tauto

lemma foldl_removeStep_spec (startTime endTime : ℚ) :
    ∀ (E : List (ℕ × SegmentShape)) (st : LayerState) (c : ℕ),
      ((E.foldl (removeStep startTime endTime) (st, c)).1.heap = st.heap
      ∧ (E.foldl (removeStep startTime endTime) (st, c)).1.storeIds = st.storeIds
      ∧ (E.foldl (removeStep startTime endTime) (st, c)).1.subs = st.subs
      ∧ (E.foldl (removeStep startTime endTime) (st, c)).1.view = st.view
      ∧ (E.foldl (removeStep startTime endTime) (st, c)).1.drawCalls = st.drawCalls)
      ∧ ∀ j, j ∈ keys (E.foldl (removeStep startTime endTime) (st, c)).1
          ↔ j ∈ keys st
            ∧ (j ∈ E.map Prod.fst → badB st startTime endTime j = false) := by
  intro E
  induction E with
  | nil =>
      intro st c
      exact ⟨⟨rfl, rfl, rfl, rfl, rfl⟩, fun j => by simp⟩
  | cons en rest ih =>
      intro st c
      simp only [List.foldl_cons]
      cases hh : heapFind st en.1 with
      | none =>
          have hstep : removeStep startTime endTime (st, c) en = (st, c) := by
            simp [removeStep, hh]
          rw [hstep]
          have h := ih st c
          refine ⟨h.1, ?_⟩
          intro j
          rw [h.2 j]
          have hbadj : badB st startTime endTime en.1 = false := by
            simp [badB, hh]
          constructor
          · rintro ⟨hk, himp⟩
            refine ⟨hk, ?_⟩
            simp only [List.map_cons, List.mem_cons]
            rintro (rfl | hmem)
            · exact hbadj
            · exact himp hmem
          · rintro ⟨hk, himp⟩
            exact ⟨hk, fun hm => himp (by simp [hm])⟩
      | some seg =>
          have hsegid : seg.id = en.1 := heapFind_some_id hh
          by_cases hvis : seg.isVisible startTime endTime = true
          · have hstep : removeStep startTime endTime (st, c) en = (st, c) := by
              simp [removeStep, hh, hvis]
            rw [hstep]
            have h := ih st c
            refine ⟨h.1, ?_⟩
            intro j
            rw [h.2 j]
            have hbadj : badB st startTime endTime en.1 = false := by
              simp [badB, hh, hvis]
            constructor
            · rintro ⟨hk, himp⟩
              refine ⟨hk, ?_⟩
              simp only [List.map_cons, List.mem_cons]
              rintro (rfl | hmem)
              · exact hbadj
              · exact himp hmem
            · rintro ⟨hk, himp⟩
              exact ⟨hk, fun hm => himp (by simp [hm])⟩
          · have hvisf : seg.isVisible startTime endTime = false :=
              Bool.eq_false_iff.mpr hvis
            have hstep : removeStep startTime endTime (st, c) en
                = (removeSegment st seg, c + 1) := by
              simp [removeStep, hh, hvisf]
            rw [hstep]
            have h := ih (removeSegment st seg) (c + 1)
            have hheq : (removeSegment st seg).heap = st.heap := removeSegment_heap st seg
            refine ⟨⟨h.1.1.trans hheq,
                    h.1.2.1.trans (removeSegment_storeIds st seg),
                    h.1.2.2.1.trans (removeSegment_subs st seg),
                    h.1.2.2.2.1.trans (removeSegment_view st seg),
                    h.1.2.2.2.2.trans (removeSegment_drawCalls st seg)⟩, ?_⟩
            intro j
            rw [h.2 j, mem_keys_removeSegment]
            have hbadj : badB st startTime endTime en.1 = true := by
              simp [badB, hh, hvisf]
            have hbcong := badB_congr hheq startTime endTime
            simp only [hbcong, hsegid]
            constructor
            · rintro ⟨⟨hk, hne⟩, himp⟩
              refine ⟨hk, ?_⟩
              simp only [List.map_cons, List.mem_cons]
              rintro (rfl | hm)
              · exact absurd rfl hne
              · exact himp hm
            · rintro ⟨hk, himp⟩
              have hne : j ≠ en.1 := by
                rintro rfl
                have hf := himp (by simp)
                rw [hbadj] at hf
                cases hf
              exact ⟨⟨hk, hne⟩, fun hm => himp (by simp [hm])⟩

lemma removeInvisibleSegments_spec (st : LayerState) (startTime endTime : ℚ) :
    ((removeInvisibleSegments st startTime endTime).1.heap = st.heap
    ∧ (removeInvisibleSegments st startTime endTime).1.storeIds = st.storeIds
    ∧ (removeInvisibleSegments st startTime endTime).1.subs = st.subs
    ∧ (removeInvisibleSegments st startTime endTime).1.view = st.view
    ∧ (removeInvisibleSegments st startTime endTime).1.drawCalls = st.drawCalls)
    ∧ ∀ j, j ∈ keys (removeInvisibleSegments st startTime endTime).1
        ↔ j ∈ keys st ∧ badB st startTime endTime j = false := by
  have h := foldl_removeStep_spec startTime endTime st.segmentShapes st 0
  refine ⟨h.1, ?_⟩
  intro j
  rw [show removeInvisibleSegments st startTime endTime
      = st.segmentShapes.foldl (removeStep startTime endTime) (st, 0) from rfl,
    h.2 j]
  constructor
  · rintro ⟨hk, himp⟩
    exact ⟨hk, himp hk⟩
  · rintro ⟨hk, hbad⟩
    exact ⟨hk, fun _ => hbad⟩

lemma mem_findSegments_ids (st : LayerState) (startTime endTime : ℚ) (j : ℕ) :
    j ∈ (st.findSegments startTime endTime).map Segment.id
      ↔ j ∈ st.storeIds
        ∧ ∃ s, heapFind st j = some s ∧ s.isVisible startTime endTime = true := by
  simp only [LayerState.findSegments, List.mem_map, List.mem_filter, List.mem_filterMap]
  constructor
  · rintro ⟨s, ⟨⟨i, hi, hf⟩, hv⟩, rfl⟩
    have hid := heapFind_some_id hf
    rw [← hid] at hi hf
    exact ⟨hi, s, hf, hv⟩
  · rintro ⟨hj, s, hf, hv⟩
    exact ⟨s, ⟨⟨j, hj, hf⟩, hv⟩, heapFind_some_id hf⟩

lemma updateSegments_spec (st : LayerState) (startTime endTime : ℚ) :
    ((updateSegments st startTime endTime).heap = st.heap
    ∧ (updateSegments st startTime endTime).storeIds = st.storeIds
    ∧ (updateSegments st startTime endTime).subs = st.subs
    ∧ (updateSegments st startTime endTime).view = st.view)
    ∧ (Inv st → ∀ j,
        j ∈ keys (updateSegments st startTime endTime)
          ↔ j ∈ (st.findSegments startTime endTime).map Segment.id) := by
  have hA := foldl_updateSegmentOp_spec (st.findSegments startTime endTime) st
  have hB := removeInvisibleSegments_spec
      ((st.findSegments startTime endTime).foldl updateSegmentOp st) startTime endTime
  have hEq : updateSegments st startTime endTime
      = (if 0 < (st.findSegments startTime endTime).length
            + (removeInvisibleSegments
                ((st.findSegments startTime endTime).foldl updateSegmentOp st)
                startTime endTime).2
         then (removeInvisibleSegments
                ((st.findSegments startTime endTime).foldl updateSegmentOp st)
                startTime endTime).1.draw
         else (removeInvisibleSegments
                ((st.findSegments startTime endTime).foldl updateSegmentOp st)
                startTime endTime).1) := rfl
  have hmem : Inv st → ∀ j,
      (j ∈ keys (removeInvisibleSegments
          ((st.findSegments startTime endTime).foldl updateSegmentOp st)
          startTime endTime).1
        ↔ j ∈ (st.findSegments startTime endTime).map Segment.id) := by
    intro hInv j
    rw [hB.2 j]
    have hbcong := badB_congr hA.1.1 startTime endTime
    constructor
    · rintro ⟨hk1, hbad⟩
      rcases (hA.2 j).mp hk1 with hkst | hmemF
      · have hsid : j ∈ st.storeIds := hInv.1 j hkst
        have hhid : j ∈ st.heap.map Segment.id := hInv.2 j hsid
        obtain ⟨s, hf⟩ := Option.isSome_iff_exists.mp ((heapFind_isSome_iff st j).mpr hhid)
        rw [hbcong j] at hbad
        have hv : s.isVisible startTime endTime = true := by
          unfold badB at hbad
          rw [hf] at hbad
          simpa using hbad
        exact (mem_findSegments_ids st startTime endTime j).mpr ⟨hsid, s, hf, hv⟩
      · exact hmemF
    · intro hmemF
      obtain ⟨hsid, s, hf, hv⟩ := (mem_findSegments_ids st startTime endTime j).mp hmemF
      refine ⟨(hA.2 j).mpr (Or.inr hmemF), ?_⟩
      rw [hbcong j]
      unfold badB
      rw [hf]
      simp [hv]
  rw [hEq]
  split
  · exact ⟨⟨(draw_heap _).trans (hB.1.1.trans hA.1.1),
      (draw_storeIds _).trans (hB.1.2.1.trans hA.1.2.1),
      (draw_subs _).trans (hB.1.2.2.1.trans hA.1.2.2.1),
      (draw_view _).trans (hB.1.2.2.2.1.trans hA.1.2.2.2.1)⟩,
      fun hInv j => by rw [keys_draw]; exact hmem hInv j⟩
  · exact ⟨⟨hB.1.1.trans hA.1.1,
      hB.1.2.1.trans hA.1.2.1,
      hB.1.2.2.1.trans hA.1.2.2.1,
      hB.1.2.2.2.1.trans hA.1.2.2.2.1⟩,
      fun hInv j => hmem hInv j⟩

lemma removeSegment_inv (st : LayerState) (seg : Segment) (hInv : Inv st) :
    Inv (removeSegment st seg) := by
  constructor
  · intro i hi
    rw [removeSegment_storeIds]
    exact hInv.1 i ((mem_keys_removeSegment st seg i).mp hi).1
  · intro i hi
    rw [removeSegment_storeIds] at hi
    rw [removeSegment_heap]
    exact hInv.2 i hi

lemma addSegmentShape_inv (st : LayerState) (seg : Segment) (hInv : Inv st)
    (hid : seg.id ∈ st.storeIds) : Inv (addSegmentShape st seg) := by
  constructor
  · intro i hi
    rw [addSegmentShape_storeIds]
    rcases (mem_keys_addSegmentShape st seg i).mp hi with h | rfl
    · exact hInv.1 i h
    · exact hid
  · intro i hi
    rw [addSegmentShape_storeIds] at hi
    rw [addSegmentShape_heap]
    exact hInv.2 i hi

lemma updateSegmentOp_inv (st : LayerState) (seg : Segment) (hInv : Inv st)
    (hid : seg.id ∈ st.storeIds) : Inv (updateSegmentOp st seg) := by
  unfold updateSegmentOp
  cases shapeFind st seg.id with
  | none => exact addSegmentShape_inv st seg hInv hid
  | some v => exact hInv

lemma hideSegment_inv (st : LayerState) (seg : Segment) (hInv : Inv st) :
    Inv (hideSegment st seg) := by
  constructor
  · intro i hi
    rw [hideSegment_storeIds]
    rw [hideSegment_segmentShapes_map] at hi
    exact hInv.1 i hi
  · intro i hi
    rw [hideSegment_storeIds] at hi
    rw [hideSegment_heapIds]
    exact hInv.2 i hi

lemma draw_inv (st : LayerState) (hInv : Inv st) : Inv st.draw := by
  constructor
  · intro i hi
    rw [draw_storeIds]
    rw [keys_draw] at hi
    exact hInv.1 i hi
  · intro i hi
    rw [draw_storeIds] at hi
    rw [draw_heap]
    exact hInv.2 i hi

lemma updateSegments_inv (st : LayerState) (t0 t1 : ℚ) (hInv : Inv st) :
    Inv (updateSegments st t0 t1) := by
  have h := updateSegments_spec st t0 t1
  constructor
  · intro i hi
    rw [h.1.2.1]
    exact ((mem_findSegments_ids st t0 t1 i).mp ((h.2 hInv i).mp hi)).1
  · intro i hi
    rw [h.1.2.1] at hi
    rw [h.1.1]
    exact hInv.2 i hi

lemma heapUpdate_ids (heap : List Segment) (seg : Segment) :
    (heap.map (fun s => if s.id = seg.id then seg else s)).map Segment.id
      = heap.map Segment.id := by
  rw [List.map_map]
  apply List.map_congr_left
  intro s _
  by_cases h : s.id = seg.id <;> simp [h]

lemma any_id_beq_iff (segs : List Segment) (j : ℕ) :
    segs.any (fun s => s.id == j) = true ↔ j ∈ segs.map Segment.id := by
  simp [List.any_eq_true]

lemma foldl_removeSegment_spec (segs : List Segment) :
    ∀ st : LayerState,
      ((segs.foldl removeSegment st).heap = st.heap
      ∧ (segs.foldl removeSegment st).storeIds = st.storeIds
      ∧ (segs.foldl removeSegment st).subs = st.subs
      ∧ (segs.foldl removeSegment st).view = st.view
      ∧ (segs.foldl removeSegment st).drawCalls = st.drawCalls)
      ∧ ∀ j, j ∈ keys (segs.foldl removeSegment st)
          ↔ j ∈ keys st ∧ j ∉ segs.map Segment.id := by
  induction segs with
  | nil =>
      intro st
      exact ⟨⟨rfl, rfl, rfl, rfl, rfl⟩, fun j => by simp⟩
  | cons s rest ih =>
      intro st
      have h := ih (removeSegment st s)
      simp only [List.foldl_cons]
      refine ⟨⟨h.1.1.trans (removeSegment_heap st s),
              h.1.2.1.trans (removeSegment_storeIds st s),
              h.1.2.2.1.trans (removeSegment_subs st s),
              h.1.2.2.2.1.trans (removeSegment_view st s),
              h.1.2.2.2.2.trans (removeSegment_drawCalls st s)⟩, ?_⟩
      intro j
      rw [h.2 j, mem_keys_removeSegment]
      simp only [List.map_cons, List.mem_cons]
      tauto

lemma foldl_hideSegment_frames (segs : List Segment) :
    ∀ st : LayerState,
      (segs.foldl hideSegment st).heap.map Segment.id = st.heap.map Segment.id
      ∧ (segs.foldl hideSegment st).storeIds = st.storeIds
      ∧ (segs.foldl hideSegment st).subs = st.subs
      ∧ (segs.foldl hideSegment st).view = st.view
      ∧ (segs.foldl hideSegment st).drawCalls = st.drawCalls
      ∧ (segs.foldl hideSegment st).destroyCalls = st.destroyCalls
      ∧ keys (segs.foldl hideSegment st) = keys st := by
  induction segs with
  | nil => intro st; exact ⟨rfl, rfl, rfl, rfl, rfl, rfl, rfl⟩
  | cons s rest ih =>
      intro st
      have h := ih (hideSegment st s)
      simp only [List.foldl_cons]
      exact ⟨h.1.trans (hideSegment_heapIds st s),
             h.2.1.trans (hideSegment_storeIds st s),
             h.2.2.1.trans (hideSegment_subs st s),
             h.2.2.2.1.trans (hideSegment_view st s),
             h.2.2.2.2.1.trans (hideSegment_drawCalls st s),
             h.2.2.2.2.2.1.trans (hideSegment_destroyCalls st s),
             h.2.2.2.2.2.2.trans (hideSegment_segmentShapes_map st s)⟩

lemma foldl_addVisibleStep_spec (t0 t1 : ℚ) (segs : List Segment) :
    ∀ st : LayerState,
      ((segs.foldl (addVisibleStep t0 t1) st).heap = st.heap
      ∧ (segs.foldl (addVisibleStep t0 t1) st).storeIds = st.storeIds
      ∧ (segs.foldl (addVisibleStep t0 t1) st).subs = st.subs
      ∧ (segs.foldl (addVisibleStep t0 t1) st).view = st.view)
      ∧ (Inv st → (∀ s ∈ segs, s.id ∈ st.storeIds) →
          Inv (segs.foldl (addVisibleStep t0 t1) st)) := by
  induction segs with
  | nil => intro st; exact ⟨⟨rfl, rfl, rfl, rfl⟩, fun hInv _ => hInv⟩
  | cons s rest ih =>
      intro st
      have hstep : (addVisibleStep t0 t1 st s).heap = st.heap
          ∧ (addVisibleStep t0 t1 st s).storeIds = st.storeIds
          ∧ (addVisibleStep t0 t1 st s).subs = st.subs
          ∧ (addVisibleStep t0 t1 st s).view = st.view := by
        unfold addVisibleStep
        split <;> exact ⟨rfl, rfl, rfl, rfl⟩
      have h := ih (addVisibleStep t0 t1 st s)
      simp only [List.foldl_cons]
      refine ⟨⟨h.1.1.trans hstep.1, h.1.2.1.trans hstep.2.1,
              h.1.2.2.1.trans hstep.2.2.1, h.1.2.2.2.trans hstep.2.2.2⟩, ?_⟩
      intro hInv hids
      have hInv1 : Inv (addVisibleStep t0 t1 st s) := by
        unfold addVisibleStep
        split
        · exact addSegmentShape_inv st s hInv (hids s (by simp))
        · exact hInv
      refine h.2 hInv1 ?_
      intro s2 hs2
      rw [hstep.2.1]
      exact hids s2 (by simp [hs2])

lemma onSegmentsUpdate_inv (st : LayerState) (seg : Segment)
    (hInv : Inv st) (hid : seg.id ∈ st.storeIds) :
    Inv (onSegmentsUpdate st seg) ∧ (onSegmentsUpdate st seg).subs = st.subs := by
  cases hshape : (shapeFind st seg.id).isSome
      <;> cases hvis : seg.isVisible (frameStartTime st) (frameEndTime st)
      <;> simp only [onSegmentsUpdate, hshape, hvis, Bool.false_or, Bool.or_false,
            Bool.or_true, Bool.true_or, if_true, if_false, Bool.false_eq_true,
            Bool.true_eq_false, ite_false, ite_true]
  · exact ⟨hInv, trivial⟩
  · refine ⟨updateSegments_inv _ _ _ (addSegmentShape_inv st seg hInv hid), ?_⟩
    rw [(updateSegments_spec _ _ _).1.2.2.1, addSegmentShape_subs]
  · refine ⟨updateSegments_inv _ _ _ (removeSegment_inv st seg hInv), ?_⟩
    rw [(updateSegments_spec _ _ _).1.2.2.1, removeSegment_subs]
  · have h1 := removeSegment_inv st seg hInv
    have h2 := addSegmentShape_inv (removeSegment st seg) seg h1
        (by rw [removeSegment_storeIds]; exact hid)
    refine ⟨updateSegments_inv _ _ _ h2, ?_⟩
    rw [(updateSegments_spec _ _ _).1.2.2.1, addSegmentShape_subs, removeSegment_subs]

lemma onSegmentsAdd_inv (st : LayerState) (segs : List Segment)
    (hInv : Inv st) (hids : ∀ s ∈ segs, s.id ∈ st.storeIds) :
    Inv (onSegmentsAdd st segs) ∧ (onSegmentsAdd st segs).subs = st.subs := by
  simp only [onSegmentsAdd]
  have hf := foldl_addVisibleStep_spec (frameStartTime st) (frameEndTime st) segs st
  refine ⟨updateSegments_inv _ _ _ (hf.2 hInv hids), ?_⟩
  rw [(updateSegments_spec _ _ _).1.2.2.1, hf.1.2.2.1]

lemma onSegmentsHide_inv (st : LayerState) (segs : List Segment) (hInv : Inv st) :
    Inv (onSegmentsHide st segs) ∧ (onSegmentsHide st segs).subs = st.subs := by
  simp only [onSegmentsHide]
  have hf := foldl_hideSegment_frames segs st
  have hInvF : Inv (segs.foldl hideSegment st) := by
    constructor
    · intro i hi
      rw [hf.2.1]
      rw [hf.2.2.2.2.2.2] at hi
      exact hInv.1 i hi
    · intro i hi
      rw [hf.2.1] at hi
      rw [hf.1]
      exact hInv.2 i hi
  exact ⟨draw_inv _ hInvF, (draw_subs _).trans hf.2.2.1⟩

lemma onSegmentsDragged_inv (st : LayerState) (seg : Segment)
    (hInv : Inv st) (hid : seg.id ∈ st.storeIds) :
    Inv (onSegmentsDragged st seg) ∧ (onSegmentsDragged st seg).subs = st.subs :=
  ⟨draw_inv _ (updateSegmentOp_inv st seg hInv hid),
   (draw_subs _).trans (updateSegmentOp_subs st seg)⟩

lemma topic_mem_allTopics (e : StoreEvent) : e.topic ∈ allTopics := by
  cases e <;> simp [StoreEvent.topic, allTopics]

lemma applyStoreMutation_subs (st : LayerState) (e : StoreEvent) :
    (applyStoreMutation st e).subs = st.subs := by
  cases e <;> rfl

lemma processEvent_inv (st : LayerState) (e : StoreEvent)
    (hInv : Inv st) (hsubs : st.subs = allTopics) (hwf : WFeventB st e = true) :
    Inv (processEvent st e) ∧ (processEvent st e).subs = allTopics := by
  have hrun : processEvent st e = runHandler (applyStoreMutation st e) e := by
    unfold processEvent
    rw [if_pos]
    rw [applyStoreMutation_subs, hsubs]
    exact topic_mem_allTopics e
  rw [hrun]
  cases e with
  | update seg =>
      simp only [runHandler]
      have hInv1 : Inv (applyStoreMutation st (StoreEvent.update seg)) := by
        constructor
        · intro i hi
          exact hInv.1 i hi
        · intro i hi
          show i ∈ (st.heap.map fun s => if s.id = seg.id then seg else s).map Segment.id
          rw [heapUpdate_ids]
          exact hInv.2 i hi
      have hid : seg.id ∈ (applyStoreMutation st (StoreEvent.update seg)).storeIds :=
        List.mem_of_elem_eq_true hwf
      have h := onSegmentsUpdate_inv _ seg hInv1 hid
      exact ⟨h.1, h.2.trans ((applyStoreMutation_subs st _).trans hsubs)⟩
  | add segs =>
      simp only [runHandler]
      have hInv1 : Inv (applyStoreMutation st (StoreEvent.add segs)) := by
        constructor
        · intro i hi
          show i ∈ st.storeIds ++ segs.map Segment.id
          exact List.mem_append_left _ (hInv.1 i hi)
        · intro i hi
          show i ∈ (st.heap ++ segs).map Segment.id
          rw [List.map_append]
          rcases List.mem_append.mp hi with h | h
          · exact List.mem_append_left _ (hInv.2 i h)
          · exact List.mem_append_right _ h
      have hids : ∀ s ∈ segs, s.id ∈ (applyStoreMutation st (StoreEvent.add segs)).storeIds := by
        intro s hs
        show s.id ∈ st.storeIds ++ segs.map Segment.id
        exact List.mem_append_right _ (List.mem_map_of_mem _ hs)
      have h := onSegmentsAdd_inv _ segs hInv1 hids
      exact ⟨h.1, h.2.trans ((applyStoreMutation_subs st _).trans hsubs)⟩
  | remove segs =>
      simp only [runHandler, onSegmentsRemove]
      have hf := foldl_removeSegment_spec segs (applyStoreMutation st (StoreEvent.remove segs))
      constructor
      · apply draw_inv
        constructor
        · intro i hi
          rw [hf.1.2.1]
          have hm := (hf.2 i).mp hi
          show i ∈ st.storeIds.filter (fun i => ¬ segs.any (fun s => s.id == i))
          rw [List.mem_filter]
          refine ⟨hInv.1 i hm.1, ?_⟩
          have hnot : ¬ (segs.any (fun s => s.id == i) = true) := by
            rw [any_id_beq_iff]
            exact hm.2
          simpa using hnot
        · intro i hi
          rw [hf.1.2.1] at hi
          rw [hf.1.1]
          have hi2 : i ∈ st.storeIds := (List.mem_filter.mp hi).1
          exact hInv.2 i hi2
      · exact ((draw_subs _).trans hf.1.2.2.1).trans
          ((applyStoreMutation_subs st _).trans hsubs)
  | hide segs =>
      simp only [runHandler]
      have h := onSegmentsHide_inv st segs hInv
      exact ⟨h.1, h.2.trans hsubs⟩
  | removeAll =>
      simp only [runHandler, onSegmentsRemoveAll]
      constructor
      · apply draw_inv
        constructor
        · intro i hi
          exact absurd hi (List.not_mem_nil i)
        · intro i hi
          exact absurd hi (List.not_mem_nil i)
      · exact (draw_subs _).trans hsubs
  | dragged seg =>
      simp only [runHandler]
      have hInv1 : Inv (applyStoreMutation st (StoreEvent.dragged seg)) := by
        constructor
        · intro i hi
          exact hInv.1 i hi
        · intro i hi
          show i ∈ (st.heap.map fun s => if s.id = seg.id then seg else s).map Segment.id
          rw [heapUpdate_ids]
          exact hInv.2 i hi
      have hid : seg.id ∈ (applyStoreMutation st (StoreEvent.dragged seg)).storeIds :=
        List.mem_of_elem_eq_true hwf
      have h := onSegmentsDragged_inv _ seg hInv1 hid
      exact ⟨h.1, h.2.trans ((applyStoreMutation_subs st _).trans hsubs)⟩

lemma replayEvents_inv (evs : List StoreEvent) :
    ∀ st : LayerState, Inv st → st.subs = allTopics → WFtraceB st evs = true →
      Inv (replayEvents st evs) ∧ (replayEvents st evs).subs = allTopics := by
  induction evs with
  | nil => intro st hInv hsubs _; exact ⟨hInv, hsubs⟩
  | cons e rest ih =>
      intro st hInv hsubs hwf
      rw [show WFtraceB st (e :: rest)
            = (WFeventB st e && WFtraceB (processEvent st e) rest) from rfl,
        Bool.and_eq_true] at hwf
      have h1 := processEvent_inv st e hInv hsubs hwf.1
      have h2 := ih (processEvent st e) h1.1 h1.2 hwf.2
      simpa [replayEvents, List.foldl_cons] using h2

lemma shapeFind_congr {st1 st2 : LayerState}
    (h : st1.segmentShapes = st2.segmentShapes) (i : ℕ) :
    shapeFind st1 i = shapeFind st2 i := by
  unfold shapeFind; rw [h]

lemma heapFind_hideSegment_some (st : LayerState) (seg : Segment) (i : ℕ)
    (hsh : (shapeFind st seg.id).isSome) :
    heapFind (hideSegment st seg) i
      = (heapFind st i).map
          (fun s => if s.id = seg.id then { s with hidden := true } else s) := by
  unfold hideSegment
  cases h : shapeFind st seg.id with
  | none => rw [h] at hsh; cases hsh
  | some v =>
      show List.find? _ (st.heap.map _) = _
      rw [List.find?_map]
      congr 1
      unfold heapFind
      congr 1
      funext s
      by_cases hid : s.id = seg.id <;> simp [Function.comp, hid]

lemma shapeFind_hideSegment_some (st : LayerState) (seg : Segment) (i : ℕ)
    (hsh : (shapeFind st seg.id).isSome) :
    shapeFind (hideSegment st seg) i
      = (shapeFind st i).map
          (fun en => if en.1 = seg.id then (en.1, { en.2 with hiddenShape := true })
                     else en) := by
  unfold hideSegment
  cases h : shapeFind st seg.id with
  | none => rw [h] at hsh; cases hsh
  | some v =>
      show List.find? _ (st.segmentShapes.map _) = _
      rw [List.find?_map]
      congr 1
      unfold shapeFind
      congr 1
      funext en
      by_cases hid : en.1 = seg.id <;> simp [Function.comp, hid]

lemma hideSegment_marks (st : LayerState) (seg : Segment)
    (hk : seg.id ∈ keys st) :
    (heapFind (hideSegment st seg) seg.id).all (fun s => s.hidden) = true
    ∧ (shapeFind (hideSegment st seg) seg.id).all
        (fun en => en.2.hiddenShape) = true := by
  have hsh : (shapeFind st seg.id).isSome := (shapeFind_isSome_iff st seg.id).mpr hk
  constructor
  · rw [heapFind_hideSegment_some st seg seg.id hsh]
    cases hf : heapFind st seg.id with
    | none => rfl
    | some s =>
        have hid : s.id = seg.id := heapFind_some_id hf
        simp [hid]
  · rw [shapeFind_hideSegment_some st seg seg.id hsh]
    cases hf : shapeFind st seg.id with
    | none => rfl
    | some en =>
        have hid : en.1 = seg.id := by
          unfold shapeFind at hf
          have hp := List.find?_some hf
          simpa using hp
        simp [hid]

lemma hideSegment_preserves_marks (st : LayerState) (seg : Segment) (i : ℕ)
    (h1 : (heapFind st i).all (fun s => s.hidden) = true)
    (h2 : (shapeFind st i).all (fun en => en.2.hiddenShape) = true) :
    (heapFind (hideSegment st seg) i).all (fun s => s.hidden) = true
    ∧ (shapeFind (hideSegment st seg) i).all (fun en => en.2.hiddenShape) = true := by
  by_cases hsh : (shapeFind st seg.id).isSome
  · constructor
    · rw [heapFind_hideSegment_some st seg i hsh]
      cases hf : heapFind st i with
      | none => rfl
      | some s =>
          rw [hf] at h1
          rw [Option.all_some] at h1
          by_cases hid : s.id = seg.id <;> simp [hid, h1]
    · rw [shapeFind_hideSegment_some st seg i hsh]
      cases hf : shapeFind st i with
      | none => rfl
      | some en =>
          rw [hf] at h2
          rw [Option.all_some] at h2
          by_cases hid : en.1 = seg.id <;> simp [hid, h2]
  · have hnone : shapeFind st seg.id = none := Option.not_isSome_iff_eq_none.mp hsh
    unfold hideSegment
    rw [hnone]
    exact ⟨h1, h2⟩

lemma foldl_hideSegment_preserves (segs : List Segment) :
    ∀ (st : LayerState) (i : ℕ),
      (heapFind st i).all (fun s => s.hidden) = true →
      (shapeFind st i).all (fun en => en.2.hiddenShape) = true →
      (heapFind (segs.foldl hideSegment st) i).all (fun s => s.hidden) = true
      ∧ (shapeFind (segs.foldl hideSegment st) i).all
          (fun en => en.2.hiddenShape) = true := by
  induction segs with
  | nil => intro st i h1 h2; exact ⟨h1, h2⟩
  | cons s rest ih =>
      intro st i h1 h2
      have hstep := hideSegment_preserves_marks st s i h1 h2
      simpa [List.foldl_cons] using ih (hideSegment st s) i hstep.1 hstep.2

lemma foldl_hideSegment_marks (segs : List Segment) :
    ∀ st : LayerState, ∀ seg ∈ segs, seg.id ∈ keys st →
      (heapFind (segs.foldl hideSegment st) seg.id).all (fun s => s.hidden) = true
      ∧ (shapeFind (segs.foldl hideSegment st) seg.id).all
          (fun en => en.2.hiddenShape) = true := by
  induction segs with
  | nil => intro st seg h; cases h
  | cons s rest ih =>
      intro st seg hmem hk
      rcases List.mem_cons.mp hmem with rfl | hmem2
      · have hm := hideSegment_marks st seg hk
        have hpres := foldl_hideSegment_preserves rest (hideSegment st seg) seg.id
            hm.1 hm.2
        simpa [List.foldl_cons] using hpres
      · have hk2 : seg.id ∈ keys (hideSegment st s) := by
          rw [hideSegment_segmentShapes_map]; exact hk
        simpa [List.foldl_cons] using ih (hideSegment st s) seg hmem2 hk2

lemma layer1_eq :
    layer1 = { heap := [seg1], storeIds := [1], segmentShapes := [(1, ⟨1, false⟩)],
               subs := allTopics, view := zoomView, drawCalls := 1,
               destroyCalls := [] } := by
  norm_num [layer1, seg1, replayEvents, processEvent, applyStoreMutation, StoreEvent.topic,
    runHandler, onSegmentsAdd, addVisibleStep, frameStartTime, frameEndTime, zoomView,
    initLayer, allTopics, shapeFind, removeSegment, addSegmentShape, setShape,
    Segment.isVisible, updateSegments, LayerState.findSegments, heapFind,
    removeInvisibleSegments, removeStep, updateSegmentOp, LayerState.draw, keys,
    zoom_ne_overview, List.filterMap_cons, List.filterMap_nil, List.filter_cons,
    List.filter_nil, List.foldl_cons, List.foldl_nil, List.find?]

lemma layerFar_eq :
    layerFar = { heap := [seg1Far], storeIds := [1], segmentShapes := [],
                 subs := allTopics, view := zoomView, drawCalls := 0,
                 destroyCalls := [] } := by
  norm_num [layerFar, seg1Far, replayEvents, processEvent, applyStoreMutation,
    StoreEvent.topic, runHandler, onSegmentsAdd, addVisibleStep, frameStartTime,
    frameEndTime, zoomView, initLayer, allTopics, shapeFind, removeSegment,
    addSegmentShape, setShape, Segment.isVisible, updateSegments,
    LayerState.findSegments, heapFind, removeInvisibleSegments, removeStep,
    updateSegmentOp, LayerState.draw, keys, zoom_ne_overview, List.filterMap_cons,
    List.filterMap_nil, List.filter_cons, List.filter_nil, List.foldl_cons,
    List.foldl_nil, List.find?]

lemma layerHidden_eq :
    layerHidden = { heap := [⟨1, 5, 10, true⟩], storeIds := [1],
                    segmentShapes := [(1, ⟨1, true⟩)], subs := allTopics,
                    view := zoomView, drawCalls := 2, destroyCalls := [] } := by
  norm_num [layerHidden, seg1, replayEvents, processEvent, applyStoreMutation,
    StoreEvent.topic, runHandler, onSegmentsAdd, addVisibleStep, onSegmentsHide,
    hideSegment, frameStartTime, frameEndTime, zoomView, initLayer, allTopics,
    shapeFind, removeSegment, addSegmentShape, setShape, Segment.isVisible,
    updateSegments, LayerState.findSegments, heapFind, removeInvisibleSegments,
    removeStep, updateSegmentOp, LayerState.draw, keys, zoom_ne_overview,
    List.filterMap_cons, List.filterMap_nil, List.filter_cons, List.filter_nil,
    List.foldl_cons, List.foldl_nil, List.find?]

/-! ### SegmentsLayer claim theorems -/

/-- Claim C1 (amended): after any well-formed sequence of store
notifications delivered to a fresh layer, a call to the reconciliation
entry point `updateSegments(t0, t1)` leaves the proxy map holding exactly
the identities of the segments returned by the store query
`find(t0, t1)` — with no "not hidden" restriction: hidden segments keep
(or get) proxies, hiding affects only a proxy's visual state, never its
membership in the map. -/
theorem syncVisible_keys (view : ViewModel) (evs : List StoreEvent) (t0 t1 : ℚ)
    (hwf : WFtraceB (initLayer view) evs = true) :
    ∀ j, j ∈ keys (updateSegments (replayEvents (initLayer view) evs) t0 t1)
        ↔ j ∈ ((replayEvents (initLayer view) evs).findSegments t0 t1).map
            Segment.id := by
  have hInv0 : Inv (initLayer view) :=
    ⟨fun i hi => by simp [keys, initLayer] at hi, fun i hi => by simp [initLayer] at hi⟩
  have h := replayEvents_inv evs (initLayer view) hInv0 rfl hwf
  exact fun j => (updateSegments_spec _ t0 t1).2 h.1 j

/-- Witness for `syncVisible_keys`: the concrete well-formed trace
`add([seg1])` followed by a sync over `[0, 20)`, checked at identity 1. -/
theorem syncVisible_keys_witness :
    1 ∈ keys (updateSegments
        (replayEvents (initLayer zoomView) [StoreEvent.add [seg1]]) 0 20)
      ↔ 1 ∈ ((replayEvents (initLayer zoomView)
          [StoreEvent.add [seg1]]).findSegments 0 20).map Segment.id :=
  syncVisible_keys zoomView [StoreEvent.add [seg1]] 0 20 (by decide) 1

/-- Claim C1 as stated is false at a concrete input: after the
notifications `add([seg1])`, `hide([seg1])`, the sync `updateSegments(0, 20)`
keeps identity 1's proxy in the map although segment 1 is hidden, so the
proxy set `{1}` differs from "`find(0, 20)` ∩ not hidden" `= ∅`. -/
theorem syncVisible_hidden_counterexample :
    keys (updateSegments layerHidden 0 20) = [1]
    ∧ ((layerHidden.findSegments 0 20).filter (fun s => ! s.hidden)).map Segment.id
        = [] := by
  rw [layerHidden_eq]
  exact ⟨by decide, by decide⟩

/-- Claim C2 (code evaluation at the failing input): with segment 1
(`[5, 10)`) the only stored segment, visible and holding a proxy in the
zoom view over `[0, 20)`, a `segments.update` notification moving it to
`[30, 40)` destroys its proxy (one proxy mutation, no replacement proxy)
yet issues zero redraws: `_onSegmentsUpdate` leaves the drawing to
`updateSegments`, which draws only when its find-count plus removal-count
is positive — here 0, the proxy having been destroyed before the pass.
The claim (and spec) require exactly one redraw for this batch. -/
theorem updateBatch_zeroRedraw :
    (processEvent layer1 (StoreEvent.update seg1Far)).drawCalls = layer1.drawCalls
    ∧ (processEvent layer1 (StoreEvent.update seg1Far)).destroyCalls = [1]
    ∧ (processEvent layer1 (StoreEvent.update seg1Far)).segmentShapes = [] := by
  rw [layer1_eq]
  refine ⟨?_, ?_, ?_⟩ <;>
    norm_num [seg1, seg1Far, processEvent, applyStoreMutation, StoreEvent.topic,
      runHandler, onSegmentsUpdate, frameStartTime, frameEndTime, zoomView, allTopics,
      shapeFind, removeSegment, addSegmentShape, setShape, Segment.isVisible,
      updateSegments, LayerState.findSegments, heapFind, removeInvisibleSegments,
      removeStep, updateSegmentOp, LayerState.draw, keys, zoom_ne_overview,
      List.filterMap_cons, List.filterMap_nil, List.filter_cons, List.filter_nil,
      List.foldl_cons, List.foldl_nil, List.find?]

/-- Claim C3 (code evaluation at the failing input): `destroy()` destroys
the held proxies but calls `peaks.off` for only five of the six topics
subscribed at construction — `segments.hide` is left subscribed — so a
`segments.hide` notification emitted after `destroy()` still invokes the
destroyed layer's handler: it marks segment 1 hidden and issues a
redraw. -/
theorem destroy_leaves_hide_subscription :
    layer1.destroy.subs = [Topic.hide]
    ∧ (processEvent layer1.destroy (StoreEvent.hide [seg1])).drawCalls
        = layer1.destroy.drawCalls + 1
    ∧ (heapFind (processEvent layer1.destroy (StoreEvent.hide [seg1])) 1).all
        (fun s => s.hidden) = true := by
  rw [layer1_eq]
  exact ⟨by decide, by decide, by decide⟩

/-- Claim C4 (code evaluation at the failing input): `destroy()` does not
clear `_segmentShapes`, so a second `destroy()` call invokes every held
proxy's `destroy()` again — after two calls the destroy log for segment 1
has two entries, where the claim requires the second call to invoke
none. -/
theorem destroy_twice_redestroys :
    layer1.destroy.destroyCalls = [1]
    ∧ layer1.destroy.destroy.destroyCalls = [1, 1] := by
  rw [layer1_eq]
  exact ⟨by decide, by decide⟩

/-- Claim C9 (amended): for every `segments.hide` notification, each given
segment that currently holds a proxy has its underlying segment marked
hidden and its proxy hidden — not destroyed: the proxy map's keys and the
destroy log are unchanged — and exactly one redraw is issued for the whole
batch (outside overview mode).  A given segment holding no proxy is left
untouched: its segment is not marked. -/
theorem hideBatch_spec (st : LayerState) (segs : List Segment)
    (hview : st.view.name ≠ "overview") :
    (onSegmentsHide st segs).drawCalls = st.drawCalls + 1
    ∧ (onSegmentsHide st segs).destroyCalls = st.destroyCalls
    ∧ keys (onSegmentsHide st segs) = keys st
    ∧ ∀ seg ∈ segs, seg.id ∈ keys st →
        ((heapFind (onSegmentsHide st segs) seg.id).all (fun s => s.hidden) = true
        ∧ (shapeFind (onSegmentsHide st segs) seg.id).all
            (fun en => en.2.hiddenShape) = true) := by
  have hf := foldl_hideSegment_frames segs st
  have hcond : ¬ ((segs.foldl hideSegment st).view.name = "overview") := by
    rw [hf.2.2.2.1]; exact hview
  have hdrawEq : (segs.foldl hideSegment st).draw
      = { segs.foldl hideSegment st with
          drawCalls := (segs.foldl hideSegment st).drawCalls + 1 } := by
    unfold LayerState.draw
    rw [if_neg hcond]
  simp only [onSegmentsHide]
  refine ⟨?_, ?_, ?_, ?_⟩
  · rw [hdrawEq]
    show (segs.foldl hideSegment st).drawCalls + 1 = st.drawCalls + 1
    rw [hf.2.2.2.2.1]
  · rw [draw_destroyCalls, hf.2.2.2.2.2.1]
  · rw [keys_draw, hf.2.2.2.2.2.2]
  · intro seg hmem hk
    have hm := foldl_hideSegment_marks segs st seg hmem hk
    constructor
    · rw [heapFind_congr (draw_heap _) seg.id]
      exact hm.1
    · rw [shapeFind_congr (draw_segmentShapes _) seg.id]
      exact hm.2

/-- Witness for `hideBatch_spec`: hiding `[seg1]` on the layer where
segment 1 holds a proxy marks it hidden, keeps its proxy, and draws
once. -/
theorem hideBatch_witness :
    (onSegmentsHide layer1 [seg1]).drawCalls = layer1.drawCalls + 1
    ∧ (heapFind (onSegmentsHide layer1 [seg1]) seg1.id).all (fun s => s.hidden)
        = true :=
  ⟨(hideBatch_spec layer1 [seg1] (by rw [layer1_eq]; decide)).1,
   ((hideBatch_spec layer1 [seg1] (by rw [layer1_eq]; decide)).2.2.2 seg1 (by simp)
      (by rw [layer1_eq]; decide)).1⟩

/-- Claim C9 as stated is false at a concrete input: a hide notification
listing a segment that holds no proxy (segment 1 spans `[30, 40)`, outside
the view, so no proxy was ever created) leaves that segment unmarked —
`_hideSegment` marks the segment only inside its `if (segmentShape)`
guard — although the claim requires every listed segment to be marked
hidden.  The batch redraw still happens. -/
theorem hideWithoutProxy_counterexample :
    (processEvent layerFar (StoreEvent.hide [seg1Far])).heap = [seg1Far]
    ∧ seg1Far.hidden = false
    ∧ (processEvent layerFar (StoreEvent.hide [seg1Far])).drawCalls
        = layerFar.drawCalls + 1 := by
  rw [layerFar_eq]
  exact ⟨by decide, by decide, by decide⟩

end PeaksVerify
